import Mathlib

/-!
Shallow embedding of `src/hackathon/script.js`: a single-file browser UI
module with five controllers (theme, section-spy table of contents,
accordion, clipboard copy, quick scroll) plus a toast helper.

DOM state, local storage and timers are modelled explicitly; each JS
function becomes a Lean function on that explicit state.
-/

/-- List lookup by position, `some` the element at index `i` when it
exists.  Used to resolve a delegated event target to the element list
built at init. -/
def nth {α : Type _} : List α → Nat → Option α
  | [], _ => none
  | a :: _, 0 => some a
  | _ :: as, n + 1 => nth as n

/-! ## Theme controller (`getTheme`, `setTheme`, `initThemeToggle`) -/

/-- `localStorage.getItem("hacksong_theme")` yields `null` (`none`) or a
string.  JS source: `return v === "light" ? "light" : "dark";` -/
def getTheme (stored : Option String) : String :=
  if stored = some "light" then "light" else "dark"

/-- State touched by the theme controller: the storage slot for the key
`hacksong_theme`, the `document.documentElement.dataset.theme` attribute,
and the text of the last toast shown. -/
structure ThemeState where
  stored : Option String
  docTheme : Option String
  toastMsg : Option String
deriving DecidableEq

/-- JS `setTheme(theme)`: applies the value to the document root,
persists it, then shows the confirmation toast. -/
def setTheme (s : ThemeState) (theme : String) : ThemeState :=
  { s with
    docTheme := some theme
    stored := some theme
    toastMsg := some (if theme = "light" then "主题：亮色" else "主题：暗色") }

/-- Startup branch of `initThemeToggle`: `if (!saved) ... else ...` where
`saved` is the raw stored string; JS treats both `null` and `""` as falsy,
and the else-branch applies `getTheme()` (re-reading the same slot). -/
def applyStartupTheme (stored : Option String) (prefersLight : Bool) : String :=
  match stored with
  | none => if prefersLight then "light" else "dark"
  | some v =>
    if v = "" then (if prefersLight then "light" else "dark")
    else getTheme (some v)

/-- Click handler of the theme toggle button:
`const next = getTheme() === "dark" ? "light" : "dark"; setTheme(next);` -/
def toggleTheme (s : ThemeState) : ThemeState :=
  setTheme s (if getTheme s.stored = "dark" then "light" else "dark")

/-! ## Startup / `mustQuery` (`main` and the element lookups) -/

/-- Which elements the page markup provides.  Only `#toast` and `#toc` are
ever requested through `mustQuery`; the other lookups in the script are
guarded (`if (!el) return` style) and can never throw. -/
structure DomDoc where
  hasToast : Bool
  hasToc : Bool
deriving DecidableEq

/-- `document.querySelector` restricted to the selectors `mustQuery` is
called with in the script. -/
def present (doc : DomDoc) (selector : String) : Bool :=
  if selector = "#toast" then doc.hasToast
  else if selector = "#toc" then doc.hasToc
  else false

/-- JS `mustQuery(selector)`: returns the element or throws
`Missing element: <selector>`. -/
def mustQuery (doc : DomDoc) (selector : String) : Except String Unit :=
  if present doc selector then .ok () else .error ("Missing element: " ++ selector)

/-- `initTocSpy` begins with `mustQuery("#toc")`; everything after that is
listener registration and cannot throw. -/
def initTocSpyStartup (doc : DomDoc) : Except String Unit :=
  mustQuery doc "#toc"

/-- `initThemeToggle` uses only guarded lookups; it never throws at startup. -/
def initThemeToggleStartup (_doc : DomDoc) : Except String Unit := .ok ()

/-- `initAccordion` starts with `document.querySelector("[data-accordion]")`
and returns silently when it is absent. -/
def initAccordionStartup (_doc : DomDoc) : Except String Unit := .ok ()

/-- `initCopyButtons` only uses guarded `getElementById` lookups. -/
def initCopyButtonsStartup (_doc : DomDoc) : Except String Unit := .ok ()

/-- `initQuickScroll` only uses guarded `getElementById` lookups. -/
def initQuickScrollStartup (_doc : DomDoc) : Except String Unit := .ok ()

/-- JS `main()`: runs the five initializers in order; an uncaught throw in
any of them aborts startup. -/
def mainStartup (doc : DomDoc) : Except String Unit := do
  initThemeToggleStartup doc
  initTocSpyStartup doc
  initAccordionStartup doc
  initCopyButtonsStartup doc
  initQuickScrollStartup doc

/-- The element lookup performed by `toast(message)` itself
(`mustQuery("#toast")`): it runs on each toast call, i.e. at event time,
not at startup. -/
def toastQuery (doc : DomDoc) : Except String Unit :=
  mustQuery doc "#toast"

/-! ## Clipboard copy (`copyToClipboard`) -/

/-- Observable DOM operations performed by `copyToClipboard`, in order. -/
inductive DomOp
  | appendTemp
  | selectTemp
  | execCopy (ok : Bool)
  | removeTemp
  | showToast (msg : String)
deriving DecidableEq

/-- Trace of `copyToClipboard(target)`.  `clipboardOk` is whether
`navigator.clipboard.writeText` resolves; `legacyOk` is the return value
of `document.execCommand("copy")` in the fallback branch. -/
def copyToClipboard (clipboardOk : Bool) (legacyOk : Bool) (label : String) :
    List DomOp :=
  if clipboardOk then
    [.showToast (label ++ "：已复制")]
  else
    [.appendTemp, .selectTemp, .execCopy legacyOk, .removeTemp,
     .showToast (if legacyOk then label ++ "：已复制"
                 else label ++ "：复制失败（请手动复制）")]

/-- Number of temporary textareas attached to the document after running a
trace, starting from `n` attached. -/
def attachedAfter (n : Nat) : List DomOp → Nat
  | [] => n
  | .appendTemp :: ops => attachedAfter (n + 1) ops
  | .removeTemp :: ops => attachedAfter (n - 1) ops
  | _ :: ops => attachedAfter n ops

/-- How many times a trace appends the temporary element. -/
def countAppends (ops : List DomOp) : Nat :=
  (ops.filter fun op => op = DomOp.appendTemp).length

/-- How many times a trace removes the temporary element. -/
def countRemoves (ops : List DomOp) : Nat :=
  (ops.filter fun op => op = DomOp.removeTemp).length

/-! ## Section spy (`initTocSpy`, `setActive`, the observer callback and
the delegated click handler) -/

/-- An anchor inside `#toc`: its `href` attribute and whether it currently
carries the `is-active` class. -/
structure Link where
  href : String
  isActive : Bool
deriving DecidableEq

/-- Remove the first `#` character, as JS `"…".replace("#", "")` does for
the one-character pattern `"#"` (first occurrence only). -/
def removeFirstHash : List Char → List Char
  | [] => []
  | c :: cs => if c = '#' then cs else c :: removeFirstHash cs

/-- Strip whitespace from both ends, as JS `String.prototype.trim`. -/
def trimChars (cs : List Char) : List Char :=
  ((cs.dropWhile Char.isWhitespace).reverse.dropWhile Char.isWhitespace).reverse

/-- JS `href.startsWith("#")`: true when the first character is `#`. -/
def startsWithHash (s : String) : Bool :=
  match s.data with
  | [] => false
  | c :: _ => c = '#'

/-- JS `href.slice(1)`: the string without its first character. -/
def dropOne (s : String) : String :=
  String.mk (s.data.drop 1)

/-- Key computation of the `idToLink` map:
`(a.getAttribute("href") || "").replace("#", "").trim()`. -/
def linkId (href : String) : String :=
  String.mk (trimChars (removeFirstHash href.data))

/-- Index of the last href in the list whose `linkId` is `key`.  The JS
`Map` is filled by a forward `forEach` with `set`, so a later link with
the same id overwrites an earlier one. -/
def lastIdxFrom (hrefs : List String) (key : String) : Option Nat :=
  match hrefs with
  | [] => none
  | h :: t =>
    match lastIdxFrom t key with
    | some j => some (j + 1)
    | none => if linkId h = key then some 0 else none

/-- `idToLink.get(key)` as a link index.  Empty ids are never inserted
(`if (id) idToLink.set(id, a)`), so the empty key finds nothing. -/
def idToLink (hrefs : List String) (key : String) : Option Nat :=
  if key = "" then none else lastIdxFrom hrefs key

/-- Spy state: the anchors of `#toc` in document order, and the ids of the
elements `document.getElementById` can resolve. -/
structure SpyState where
  links : List Link
  sectionIds : List String
deriving DecidableEq

/-- `links.forEach((a) => a.classList.remove("is-active"))`. -/
def clearActive (ls : List Link) : List Link :=
  ls.map fun l => { l with isActive := false }

/-- Add the `is-active` class to the link at index `i`. -/
def markIdx : List Link → Nat → List Link
  | [], _ => []
  | l :: ls, 0 => { l with isActive := true } :: ls
  | l :: ls, n + 1 => l :: markIdx ls n

/-- JS `setActive(activeId)`: clear the class from every link, then add it
to `idToLink.get(activeId)` when that lookup succeeds. -/
def setActive (st : SpyState) (activeId : String) : SpyState :=
  let cleared := clearActive st.links
  match idToLink (st.links.map Link.href) activeId with
  | none => { st with links := cleared }
  | some i => { st with links := markIdx cleared i }

/-- An `IntersectionObserverEntry` as the callback reads it: the
`isIntersecting` flag, the intersection ratio (`ratioVal` models the JS
entry's `intersectionRatio` number) and the target element's id. -/
structure Entry where
  isIntersecting : Bool
  ratioVal : ℚ
  targetId : String
deriving DecidableEq

/-- Head of the stable descending sort
`.sort((a, b) => (b.intersectionRatio || 0) - (a.intersectionRatio || 0))`:
the earliest element of maximal ratio. -/
def pickTop : List Entry → Option Entry
  | [] => none
  | e :: es =>
    match pickTop es with
    | none => some e
    | some b => if b.ratioVal > e.ratioVal then some b else some e

/-- The observer callback: filter intersecting entries, take the
highest-ratio one, and call `setActive` when it has a nonempty id. -/
def ioCallback (st : SpyState) (entries : List Entry) : SpyState :=
  match pickTop (entries.filter fun e => e.isIntersecting) with
  | none => st
  | some top => if top.targetId = "" then st else setActive st top.targetId

/-- `document.getElementById(id)` succeeds iff `id` is a nonempty id of an
existing element (the empty string resolves to no element). -/
def getById (ids : List String) (id : String) : Bool :=
  decide (id ≠ "") && ids.contains id

/-- Result of one delegated click on `#toc`: the new spy state, whether
`e.preventDefault()` ran, and the id scrolled to (if any). -/
structure ClickResult where
  st : SpyState
  prevented : Bool
  scrolledTo : Option String
deriving DecidableEq

/-- The delegated click handler on `#toc`.  `anchor` is the index of the
link `e.target.closest("a")` resolves to, or `none` when the click was not
on an anchor. -/
def tocClick (st : SpyState) (anchor : Option Nat) : ClickResult :=
  match anchor with
  | none => ⟨st, false, none⟩
  | some i =>
    match nth st.links i with
    | none => ⟨st, false, none⟩
    | some a =>
      if startsWithHash a.href then
        let id := dropOne a.href
        if getById st.sectionIds id then
          ⟨setActive st id, true, some id⟩
        else ⟨st, false, none⟩
      else ⟨st, false, none⟩

/-- Events the spy reacts to after initialization. -/
inductive SpyEv
  | update (entries : List Entry)
  | click (anchor : Option Nat)

/-- One spy event step. -/
def spyStep (st : SpyState) : SpyEv → SpyState
  | .update es => ioCallback st es
  | .click a => (tocClick st a).st

/-- Run a sequence of spy events. -/
def spyRun (st : SpyState) (evs : List SpyEv) : SpyState :=
  evs.foldl spyStep st

/-- Number of links currently carrying the `is-active` class. -/
def countActiveL (ls : List Link) : Nat :=
  (ls.filter fun l => l.isActive).length

/-- Number of active links of a spy state. -/
def countActive (st : SpyState) : Nat :=
  countActiveL st.links

/-! ## Accordion (`initAccordion`) -/

/-- One FAQ item: the trigger button's `aria-expanded` attribute, whether
the button has an immediately-following sibling element panel, and the
panel's `hidden` property. -/
structure AccItem where
  ariaExpanded : Option String
  hasPanel : Bool
  panelHidden : Bool
deriving DecidableEq

/-- The accordion container's items, in order. -/
structure AccState where
  items : List AccItem
deriving DecidableEq

/-- Body of the trigger-button branch:
`const expanded = btn.getAttribute("aria-expanded") === "true";
btn.setAttribute("aria-expanded", expanded ? "false" : "true");
panel.hidden = expanded;` -/
def accUpdate (it : AccItem) : AccItem :=
  let expanded := it.ariaExpanded = some "true"
  { it with
    ariaExpanded := some (if expanded then "false" else "true")
    panelHidden := expanded }

/-- The delegated click handler on `[data-accordion]`.  `btn` is the index
of the item whose trigger `e.target.closest("button.acc__item")` resolves
to, or `none` for a click outside any trigger. -/
def accClick (st : AccState) (btn : Option Nat) : AccState :=
  match btn with
  | none => st
  | some i =>
    match nth st.items i with
    | none => st
    | some it =>
      if it.hasPanel then ⟨st.items.set i (accUpdate it)⟩ else st

/-! ## Toast (`toast` and its auto-hide timer) -/

/-- Auto-hide delay of the toast, in milliseconds. -/
def toastDelayMs : Nat := 2200

/-- Toast state: the element's text and `hidden` flag, the `toast._t`
handle, a fresh-id counter for `setTimeout` return values, and the ids of
the scheduled, not-yet-cancelled, not-yet-fired timers. -/
structure ToastState where
  message : Option String
  hidden : Bool
  timerHandle : Nat
  nextId : Nat
  pending : List Nat
deriving DecidableEq

/-- State before the first toast: `toast._t = 0`, nothing scheduled;
`setTimeout` ids are positive. -/
def initToast : ToastState := ⟨none, true, 0, 1, []⟩

/-- JS `toast(message)`: set the text, unhide,
`clearTimeout(toast._t)` (cancel that timer if still pending), then
schedule a fresh auto-hide timer and store its handle in `toast._t`. -/
def toastCall (st : ToastState) (msg : String) : ToastState :=
  { message := some msg
    hidden := false
    timerHandle := st.nextId
    nextId := st.nextId + 1
    pending := (st.pending.filter fun p => p ≠ st.timerHandle) ++ [st.nextId] }

/-- The browser fires timer `id`: only a still-pending timer runs its
callback `el.hidden = true`. -/
def timerFire (st : ToastState) (id : Nat) : ToastState :=
  if id ∈ st.pending then
    { st with hidden := true, pending := st.pending.filter fun p => p ≠ id }
  else st

/-- Events touching the toast element. -/
inductive ToastEv
  | call (msg : String)
  | fire (id : Nat)

/-- One toast event step. -/
def toastStep (st : ToastState) : ToastEv → ToastState
  | .call m => toastCall st m
  | .fire id => timerFire st id

/-- Run a sequence of toast events from the initial state. -/
def toastRun (evs : List ToastEv) : ToastState :=
  evs.foldl toastStep initToast

/-- Invariant of the toast state: at most the timer whose handle sits in
`toast._t` is pending, and handles are below the fresh-id counter. -/
def ToastInv (st : ToastState) : Prop :=
  (st.pending = [] ∨ st.pending = [st.timerHandle]) ∧ st.timerHandle < st.nextId

/-! ## Concrete states used to evaluate the definitions -/

/-- A page with two toc links resolving to two sections. -/
def exSpy : SpyState := ⟨[⟨"#a", false⟩, ⟨"#b", false⟩], ["a", "b"]⟩

/-- Three intersecting entries with ratios 1 < 2 < 3; the `"b"` section has
the highest ratio. -/
def exEntries : List Entry := [⟨true, 1, "a"⟩, ⟨true, 3, "b"⟩, ⟨true, 2, "c"⟩]

/-- A toc whose single anchor points at an external URL. -/
def exExt : SpyState := ⟨[⟨"https://example.com", false⟩], []⟩

/-- A toc whose single anchor is a fragment link to an existing section. -/
def exFrag : SpyState := ⟨[⟨"#s1", false⟩], ["s1"]⟩

/-- A theme state persisted as `"light"`. -/
def exTheme : ThemeState := ⟨some "light", some "light", none⟩

/-- One collapsed FAQ item with a hidden panel. -/
def exAcc : AccState := ⟨[⟨none, true, true⟩]⟩

/-! ## Helper lemmas -/

theorem nth_clearActive :
    ∀ (ls : List Link) (j : Nat),
      nth (clearActive ls) j =
        (nth ls j).map fun l => { l with isActive := false }
  | [], _ => rfl
  | _ :: _, 0 => rfl
  | _ :: ls, j + 1 => nth_clearActive ls j

theorem nth_markIdx (ls : List Link) (i j : Nat) :
    nth (markIdx ls i) j =
      if j = i then (nth ls j).map (fun l => { l with isActive := true })
      else nth ls j := by
  induction ls generalizing i j with
  | nil => simp [markIdx, nth]
  | cons l ls ih =>
    cases i with
    | zero =>
      cases j with
      | zero => simp [markIdx, nth]
      | succ j => simp [markIdx, nth]
    | succ i =>
      cases j with
      | zero => simp [markIdx, nth]
      | succ j => simpa [markIdx, nth, Nat.succ_inj] using ih i j

theorem lastIdxFrom_lt (hrefs : List String) (key : String) :
    ∀ i : Nat, lastIdxFrom hrefs key = some i → i < hrefs.length := by
  induction hrefs with
  | nil => intro i h; simp [lastIdxFrom] at h
  | cons h t ih =>
    intro i hi
    simp only [lastIdxFrom] at hi
    split at hi
    next j hj =>
      obtain rfl : j + 1 = i := Option.some.inj hi
      exact Nat.succ_lt_succ (ih j hj)
    next hj =>
      by_cases hk : linkId h = key
      · rw [if_pos hk] at hi
        obtain rfl : 0 = i := Option.some.inj hi
        exact Nat.succ_pos _
      · rw [if_neg hk] at hi
        exact absurd hi (by simp)

theorem setActive_active_iff (st : SpyState) (id : String) (j : Nat) (l : Link)
    (h : nth (setActive st id).links j = some l) :
    (l.isActive = true ↔ idToLink (st.links.map Link.href) id = some j) := by
  cases hmap : idToLink (st.links.map Link.href) id with
  | none =>
    simp only [setActive, hmap] at h
    rw [nth_clearActive] at h
    obtain ⟨l0, hg, hf⟩ := Option.map_eq_some'.mp h
    subst hf
    simp
  | some i =>
    simp only [setActive, hmap] at h
    rw [nth_markIdx] at h
    by_cases hj : j = i
    · subst hj
      rw [if_pos rfl, nth_clearActive, Option.map_map] at h
      obtain ⟨l0, hg, hf⟩ := Option.map_eq_some'.mp h
      subst hf
      simp
    · rw [if_neg hj, nth_clearActive] at h
      obtain ⟨l0, hg, hf⟩ := Option.map_eq_some'.mp h
      subst hf
      refine ⟨fun hfalse => ?_, fun hsome => ?_⟩
      · simp at hfalse
      · exact absurd (Option.some.inj hsome).symm hj

theorem countActiveL_cons (x : Link) (xs : List Link) :
    countActiveL (x :: xs) = (if x.isActive then 1 else 0) + countActiveL xs := by
  by_cases h : x.isActive <;> simp [countActiveL, List.filter_cons, h, Nat.add_comm]

theorem countActiveL_clear (ls : List Link) : countActiveL (clearActive ls) = 0 := by
  induction ls with
  | nil => rfl
  | cons l ls ih =>
    simp only [clearActive, List.map_cons] at *
    rw [countActiveL_cons]
    simp [ih]

theorem countActiveL_markIdx (ls : List Link) (i : Nat) :
    countActiveL (markIdx ls i) ≤ countActiveL ls + 1 := by
  induction ls generalizing i with
  | nil => simp [markIdx, countActiveL]
  | cons l ls ih =>
    cases i with
    | zero =>
      simp only [markIdx, countActiveL_cons]
      split <;> split <;> omega
    | succ i =>
      simp only [markIdx, countActiveL_cons]
      have := ih i
      omega

theorem countActive_setActive (st : SpyState) (id : String) :
    countActive (setActive st id) ≤ 1 := by
  cases hmap : idToLink (st.links.map Link.href) id with
  | none => simp [countActive, setActive, hmap, countActiveL_clear]
  | some i =>
    have h1 := countActiveL_markIdx (clearActive st.links) i
    have h2 := countActiveL_clear st.links
    simp only [countActive, setActive, hmap]
    omega

theorem countActive_setActive_none (st : SpyState) (id : String)
    (h : idToLink (st.links.map Link.href) id = none) :
    countActive (setActive st id) = 0 := by
  simp [countActive, setActive, h, countActiveL_clear]

theorem spyStep_cases (st : SpyState) (ev : SpyEv) :
    spyStep st ev = st ∨ ∃ id, spyStep st ev = setActive st id := by
  cases ev with
  | update es =>
    simp only [spyStep, ioCallback]
    cases pickTop (es.filter fun e => e.isIntersecting) with
    | none => exact Or.inl rfl
    | some top =>
      by_cases h : top.targetId = ""
      · simp [h]
      · simp only [if_neg h]
        exact Or.inr ⟨top.targetId, rfl⟩
  | click a =>
    simp only [spyStep]
    cases a with
    | none => exact Or.inl rfl
    | some i =>
      cases hg : nth st.links i with
      | none => simp [tocClick, hg]
      | some l =>
        by_cases hs : startsWithHash l.href
        · by_cases he : getById st.sectionIds (dropOne l.href)
          · simp only [tocClick, hg, hs, he, if_pos]
            exact Or.inr ⟨dropOne l.href, rfl⟩
          · simp [tocClick, hg, hs, he]
        · simp [tocClick, hg, hs]

theorem spyRun_le_one (evs : List SpyEv) :
    ∀ st : SpyState, countActive st ≤ 1 → countActive (spyRun st evs) ≤ 1 := by
  induction evs with
  | nil => intro st h; simpa [spyRun] using h
  | cons ev evs ih =>
    intro st h
    have hst : countActive (spyStep st ev) ≤ 1 := by
      rcases spyStep_cases st ev with heq | ⟨id, heq⟩
      · rw [heq]; exact h
      · rw [heq]; exact countActive_setActive st id
    simpa [spyRun] using ih (spyStep st ev) hst

theorem pickTop_eq_none (l : List Entry) : pickTop l = none ↔ l = [] := by
  cases l with
  | nil => simp [pickTop]
  | cons e es =>
    refine ⟨fun h => ?_, fun h => absurd h (by simp)⟩
    exfalso
    simp only [pickTop] at h
    cases hp : pickTop es with
    | none => simp only [hp] at h; exact Option.noConfusion h
    | some c =>
      simp only [hp] at h
      by_cases hlt : c.ratioVal > e.ratioVal
      · rw [if_pos hlt] at h; exact Option.noConfusion h
      · rw [if_neg hlt] at h; exact Option.noConfusion h

theorem pickTop_mem (l : List Entry) : ∀ b : Entry, pickTop l = some b → b ∈ l := by
  induction l with
  | nil => intro b h; simp [pickTop] at h
  | cons e es ih =>
    intro b h
    simp only [pickTop] at h
    cases hp : pickTop es with
    | none =>
      simp only [hp] at h
      obtain rfl : e = b := by simpa using h
      exact List.mem_cons_self _ _
    | some c =>
      simp only [hp] at h
      by_cases hlt : c.ratioVal > e.ratioVal
      · rw [if_pos hlt] at h
        obtain rfl : c = b := by simpa using h
        exact List.mem_cons_of_mem _ (ih c hp)
      · rw [if_neg hlt] at h
        obtain rfl : e = b := by simpa using h
        exact List.mem_cons_self _ _

theorem pickTop_le (l : List Entry) : ∀ b : Entry, pickTop l = some b →
    ∀ x ∈ l, x.ratioVal ≤ b.ratioVal := by
  induction l with
  | nil => intro b h; simp [pickTop] at h
  | cons e es ih =>
    intro b h x hx
    simp only [pickTop] at h
    cases hp : pickTop es with
    | none =>
      simp only [hp] at h
      obtain rfl : e = b := by simpa using h
      have hes : es = [] := (pickTop_eq_none es).mp hp
      subst hes
      obtain rfl : x = e := by simpa using hx
      exact le_refl _
    | some c =>
      simp only [hp] at h
      rcases List.mem_cons.mp hx with rfl | hxes
      · by_cases hlt : c.ratioVal > x.ratioVal
        · rw [if_pos hlt] at h
          obtain rfl : c = b := by simpa using h
          exact le_of_lt hlt
        · rw [if_neg hlt] at h
          obtain rfl : x = b := by simpa using h
          exact le_refl _
      · have hle := ih c hp x hxes
        by_cases hlt : c.ratioVal > e.ratioVal
        · rw [if_pos hlt] at h
          obtain rfl : c = b := by simpa using h
          exact hle
        · rw [if_neg hlt] at h
          obtain rfl : e = b := by simpa using h
          exact le_trans hle (not_lt.mp hlt)

theorem nth_set_self {α : Type _} :
    ∀ (l : List α) (i : Nat) (a : α),
      nth l i ≠ none → nth (l.set i a) i = some a
  | [], i, a => by intro h; exact absurd rfl h
  | x :: xs, 0, a => by intro h; rfl
  | x :: xs, i + 1, a => by
    intro h
    simpa [List.set, nth] using nth_set_self xs i a (by simpa [nth] using h)

theorem toastInv_init : ToastInv initToast :=
  ⟨Or.inl rfl, by decide⟩

theorem toastInv_call (st : ToastState) (msg : String) (h : ToastInv st) :
    ToastInv (toastCall st msg) ∧
    (toastCall st msg).pending = [(toastCall st msg).timerHandle] := by
  obtain ⟨hp, hlt⟩ := h
  have hfil : (st.pending.filter fun p => p ≠ st.timerHandle) = [] := by
    rcases hp with hp | hp <;> simp [hp]
  refine ⟨⟨Or.inr ?_, ?_⟩, ?_⟩
  · simp only [toastCall]
    rw [hfil]
    rfl
  · simp [toastCall]
  · simp only [toastCall]
    rw [hfil]
    rfl

theorem toastInv_fire (st : ToastState) (id : Nat) (h : ToastInv st) :
    ToastInv (timerFire st id) := by
  obtain ⟨hp, hlt⟩ := h
  unfold timerFire
  split
  · refine ⟨?_, hlt⟩
    rcases hp with hp | hp
    · simp [hp]
    · by_cases hid : st.timerHandle = id
      · subst hid; simp [hp]
      · simp [hp, hid]
  · exact ⟨hp, hlt⟩

theorem toastInv_foldl (evs : List ToastEv) :
    ∀ st, ToastInv st → ToastInv (evs.foldl toastStep st) := by
  induction evs with
  | nil => intro st h; simpa using h
  | cons ev evs ih =>
    intro st h
    have hstep : ToastInv (toastStep st ev) := by
      cases ev with
      | call m => exact (toastInv_call st m h).1
      | fire id => exact toastInv_fire st id h
    simpa using ih (toastStep st ev) hstep

theorem toastInv_run (evs : List ToastEv) : ToastInv (toastRun evs) :=
  toastInv_foldl evs initToast toastInv_init

theorem accClick_some (s : AccState) (i : Nat) (it : AccItem)
    (hget : nth s.items i = some it) (hp : it.hasPanel = true) :
    accClick s (some i) = ⟨s.items.set i (accUpdate it)⟩ := by
  simp [accClick, hget, hp]

/-! ## Claims -/

/-- C6: for every possible state of the persisted storage key, `getTheme`
returns either `"light"` or `"dark"`, and it returns `"dark"` whenever the
stored value is anything other than the literal string `"light"`
(including absent). -/
theorem getTheme_total_default (stored : Option String) :
    (getTheme stored = "light" ∨ getTheme stored = "dark") ∧
    (stored ≠ some "light" → getTheme stored = "dark") := by
  constructor
  · by_cases h : stored = some "light" <;> simp [getTheme, h]
  · intro h
    simp [getTheme, h]

/-- C6 witness: a junk stored value yields `"dark"`. -/
theorem getTheme_total_default_witness :
    getTheme (some "weird-value") = "dark" :=
  (getTheme_total_default (some "weird-value")).2 (by decide)

/-- C7: starting from a persisted theme in `{light, dark}`, toggling twice
returns both the document attribute and the persisted value to the
original, and each toggle persists and applies the value it set. -/
theorem theme_toggle_involutive (s : ThemeState)
    (h : s.stored = some "light" ∨ s.stored = some "dark") :
    ((toggleTheme s).stored =
      some (if getTheme s.stored = "dark" then "light" else "dark")) ∧
    ((toggleTheme s).docTheme = (toggleTheme s).stored) ∧
    ((toggleTheme (toggleTheme s)).stored = s.stored) ∧
    ((toggleTheme (toggleTheme s)).docTheme = s.stored) := by
  rcases h with h | h <;> simp [toggleTheme, setTheme, getTheme, h]

/-- C7 witness: from persisted `"light"`, the first toggle persists
`"dark"` and the second returns to `"light"`. -/
theorem theme_toggle_involutive_witness :
    (toggleTheme exTheme).stored = some "dark" ∧
    (toggleTheme (toggleTheme exTheme)).stored = some "light" := by
  have h := theme_toggle_involutive exTheme (Or.inl rfl)
  exact ⟨by simpa [exTheme, getTheme] using h.1, by simpa [exTheme] using h.2.2.1⟩

/-- C3 counterexample: the claim says any stored value other than
`"light"`/`"dark"` is treated as absent, so with the system preferring
light a stored `"banana"` should give light like the absent case does;
the code instead applies dark. -/
theorem startup_theme_junk_counterexample :
    applyStartupTheme (some "banana") true = "dark" ∧
    applyStartupTheme none true = "light" := by
  constructor <;> rfl

/-- C3 amended: if the stored value is absent or the empty string, the
startup theme follows the system preference (light exactly when it
prefers light); any other stored value wins over the system preference
and is applied as `"light"` exactly when it is the literal `"light"`,
and as `"dark"` otherwise. -/
theorem startup_theme_policy (stored : Option String) (prefersLight : Bool) :
    ((stored = none ∨ stored = some "") →
      applyStartupTheme stored prefersLight =
        (if prefersLight then "light" else "dark")) ∧
    (∀ v, stored = some v → v ≠ "" →
      applyStartupTheme stored prefersLight =
        (if v = "light" then "light" else "dark")) := by
  constructor
  · rintro (rfl | rfl) <;> simp [applyStartupTheme]
  · rintro v rfl hv
    simp [applyStartupTheme, getTheme, hv]

/-- C3 amended witness: a junk value applies dark even against a light
system preference, and a persisted `"light"` wins over a dark preference. -/
theorem startup_theme_policy_witness :
    applyStartupTheme (some "banana") false = "dark" ∧
    applyStartupTheme (some "light") false = "light" := by
  have h1 := (startup_theme_policy (some "banana") false).2 "banana" rfl (by decide)
  have h2 := (startup_theme_policy (some "light") false).2 "light" rfl (by decide)
  exact ⟨by simpa using h1, by simpa using h2⟩

/-- C4 counterexample: with `#toc` present but the toast element missing,
`main()` completes without throwing; the `Missing element: #toast` error
is only raised by the first `toast()` call, at event time. -/
theorem missing_toast_startup_counterexample :
    mainStartup ⟨false, true⟩ = .ok () ∧
    toastQuery ⟨false, true⟩ = .error "Missing element: #toast" := by
  constructor <;> rfl

/-- C4 amended: startup throws exactly when `#toc` is missing (the only
`mustQuery` reached during `main()`); a missing toast element does not
abort startup but makes the first toast display throw; all other missing
elements are silently skipped (startup never fails because of them). -/
theorem startup_required_elements (doc : DomDoc) :
    (mainStartup doc = .ok () ↔ doc.hasToc = true) ∧
    (doc.hasToc = false → mainStartup doc = .error "Missing element: #toc") ∧
    (doc.hasToast = false → toastQuery doc = .error "Missing element: #toast") := by
  obtain ⟨a, b⟩ := doc
  cases a <;> cases b
  · exact ⟨⟨fun h => Except.noConfusion h, fun h => Bool.noConfusion h⟩,
      fun _ => rfl, fun _ => rfl⟩
  · exact ⟨⟨fun _ => rfl, fun _ => rfl⟩, fun h => Bool.noConfusion h, fun _ => rfl⟩
  · exact ⟨⟨fun h => Except.noConfusion h, fun h => Bool.noConfusion h⟩,
      fun _ => rfl, fun h => Bool.noConfusion h⟩
  · exact ⟨⟨fun _ => rfl, fun _ => rfl⟩, fun h => Bool.noConfusion h,
      fun h => Bool.noConfusion h⟩

/-- C4 amended witness: a missing `#toc` aborts startup with the thrown
message, and a missing toast element makes the toast lookup throw. -/
theorem startup_required_elements_witness :
    mainStartup ⟨true, false⟩ = .error "Missing element: #toc" ∧
    toastQuery ⟨false, true⟩ = .error "Missing element: #toast" :=
  ⟨(startup_required_elements ⟨true, false⟩).2.1 rfl,
   (startup_required_elements ⟨false, true⟩).2.2 rfl⟩

/-- C5: whenever the clipboard write rejects, the fallback appends exactly
one temporary textarea and removes exactly one, at no point holds more
than one attached, finishes with none attached, and ends by showing the
toast that reflects the legacy-copy outcome — on both exit paths. -/
theorem copy_fallback_temp_element (legacyOk : Bool) (label : String) :
    countAppends (copyToClipboard false legacyOk label) = 1 ∧
    countRemoves (copyToClipboard false legacyOk label) = 1 ∧
    attachedAfter 0 (copyToClipboard false legacyOk label) = 0 ∧
    (∀ n, attachedAfter 0 ((copyToClipboard false legacyOk label).take n) ≤ 1) ∧
    (copyToClipboard false legacyOk label).getLast? =
      some (.showToast (if legacyOk then label ++ "：已复制"
                        else label ++ "：复制失败（请手动复制）")) := by
  refine ⟨?_, ?_, ?_, ?_, ?_⟩
  · cases legacyOk <;> rfl
  · cases legacyOk <;> rfl
  · cases legacyOk <;> rfl
  · intro n
    cases legacyOk <;>
      rcases n with _ | _ | _ | _ | _ | n <;>
        simp [copyToClipboard, attachedAfter]
  · cases legacyOk <;> rfl

/-- C1: on an observer update with no intersecting entry the spy state is
unchanged; when some entry with the (strictly) highest intersection ratio
among intersecting entries has a nonempty target id, the update equals
`setActive` on that id, after which a link carries `is-active` exactly
when the id-to-link map sends that id to its index (so every other link
is cleared). -/
theorem spy_update_highest_ratio (st : SpyState) (entries : List Entry) :
    ((∀ e ∈ entries, e.isIntersecting = false) → ioCallback st entries = st) ∧
    (∀ e ∈ entries, e.isIntersecting = true → e.targetId ≠ "" →
      (∀ x ∈ entries, x.isIntersecting = true →
        x = e ∨ x.ratioVal < e.ratioVal) →
      (ioCallback st entries = setActive st e.targetId ∧
       (∀ j l, nth (setActive st e.targetId).links j = some l →
         (l.isActive = true ↔
           idToLink (st.links.map Link.href) e.targetId = some j)))) := by
  constructor
  · intro hall
    have hfil : entries.filter (fun e => e.isIntersecting) = [] := by
      rw [List.filter_eq_nil_iff]
      intro a ha
      simp [hall a ha]
    simp [ioCallback, hfil, pickTop]
  · intro e he hi hne hmax
    have hef : e ∈ entries.filter (fun x => x.isIntersecting) :=
      List.mem_filter.mpr ⟨he, hi⟩
    have hnonnil : entries.filter (fun x => x.isIntersecting) ≠ [] :=
      List.ne_nil_of_mem hef
    obtain ⟨b, hb⟩ :
        ∃ b, pickTop (entries.filter fun x => x.isIntersecting) = some b := by
      cases hpt : pickTop (entries.filter fun x => x.isIntersecting) with
      | none => exact absurd ((pickTop_eq_none _).mp hpt) hnonnil
      | some b => exact ⟨b, rfl⟩
    have hbmem := pickTop_mem _ b hb
    have hbent : b ∈ entries := (List.mem_filter.mp hbmem).1
    have hbint : b.isIntersecting = true := by
      simpa using (List.mem_filter.mp hbmem).2
    have hble : e.ratioVal ≤ b.ratioVal := pickTop_le _ b hb e hef
    have hbe : b = e := by
      rcases hmax b hbent hbint with h | h
      · exact h
      · exact absurd hble (not_le.mpr h)
    subst hbe
    refine ⟨?_, ?_⟩
    · simp [ioCallback, hb, hne]
    · intro j l hl
      exact setActive_active_iff st b.targetId j l hl

/-- C1 witness: with ratios 1, 3, 2 for sections a, b, c the update
activates exactly the `#b` link. -/
theorem spy_update_highest_ratio_witness :
    ioCallback exSpy exEntries = setActive exSpy "b" ∧
    (ioCallback exSpy exEntries).links = [⟨"#a", false⟩, ⟨"#b", true⟩] := by
  have h := (spy_update_highest_ratio exSpy exEntries).2 ⟨true, 3, "b"⟩
    (by decide) (by decide) (by decide) (by decide)
  exact ⟨h.1, by decide⟩

/-- C2 counterexample: a click on a toc anchor whose href is not a
fragment link is a no-op — default navigation is not cancelled and no
link is marked active, refuting "for every click on an anchor". -/
theorem toc_click_counterexample :
    (tocClick exExt (some 0)).prevented = false ∧
    (tocClick exExt (some 0)).st = exExt := by
  constructor <;> rfl

/-- C2 amended: for every click on a toc anchor whose href starts with
`#` and whose fragment resolves to an existing element, the handler
cancels default navigation, smooth-scrolls to that id, and immediately
marks the link the id-map associates with it active; every click on any
other anchor — href not starting with `#`, or a fragment resolving to no
existing element — is a no-op: default navigation is not cancelled, no
scrolling happens, and no active state changes. -/
theorem toc_click_fragment (st : SpyState) (i : Nat) (a : Link)
    (hget : nth st.links i = some a) :
    (startsWithHash a.href = true →
      getById st.sectionIds (dropOne a.href) = true →
      (tocClick st (some i) =
        ⟨setActive st (dropOne a.href), true, some (dropOne a.href)⟩ ∧
       (∀ j l, nth (setActive st (dropOne a.href)).links j = some l →
         (l.isActive = true ↔
           idToLink (st.links.map Link.href) (dropOne a.href) = some j)))) ∧
    (startsWithHash a.href = false →
      tocClick st (some i) = ⟨st, false, none⟩) ∧
    (getById st.sectionIds (dropOne a.href) = false →
      tocClick st (some i) = ⟨st, false, none⟩) := by
  refine ⟨fun hfrag hex => ⟨?_, ?_⟩, fun hfrag => ?_, fun hex => ?_⟩
  · simp [tocClick, hget, hfrag, hex]
  · intro j l hl
    exact setActive_active_iff st (dropOne a.href) j l hl
  · simp [tocClick, hget, hfrag]
  · by_cases hfrag : startsWithHash a.href <;> simp [tocClick, hget, hfrag, hex]

/-- C2 amended witness: clicking the `#s1` anchor prevents default,
scrolls to `s1` and activates the link; clicking the external-URL anchor
changes nothing and does not prevent default. -/
theorem toc_click_fragment_witness :
    (tocClick exFrag (some 0) = ⟨setActive exFrag "s1", true, some "s1"⟩ ∧
     (tocClick exFrag (some 0)).prevented = true ∧
     nth (tocClick exFrag (some 0)).st.links 0 = some ⟨"#s1", true⟩) ∧
    tocClick exExt (some 0) = ⟨exExt, false, none⟩ := by
  have h := (toc_click_fragment exFrag 0 ⟨"#s1", false⟩ rfl).1
    (by decide) (by decide)
  have h2 := (toc_click_fragment exExt 0 ⟨"https://example.com", false⟩ rfl).2.1
    (by decide)
  exact ⟨⟨by simpa using h.1, by decide, by decide⟩, h2⟩

/-- C8: clicking a collapsed trigger (whose following sibling panel
exists) sets `aria-expanded` to `"true"` and unhides the panel; clicking
it again sets `"false"` and hides the panel; a click not on a trigger
changes nothing. -/
theorem accordion_toggle (st : AccState) (i : Nat) (it : AccItem)
    (hget : nth st.items i = some it) (hp : it.hasPanel = true)
    (hcol : it.ariaExpanded ≠ some "true") :
    (nth (accClick st (some i)).items i = some ⟨some "true", true, false⟩) ∧
    (nth (accClick (accClick st (some i)) (some i)).items i =
      some ⟨some "false", true, true⟩) ∧
    (accClick st none = st) := by
  have hne : nth st.items i ≠ none := by simp [hget]
  have h1 : accClick st (some i) = ⟨st.items.set i (accUpdate it)⟩ :=
    accClick_some st i it hget hp
  have hupd : accUpdate it = ⟨some "true", true, false⟩ := by
    simp [accUpdate, hcol, hp]
  have hg1 : nth (accClick st (some i)).items i =
      some (⟨some "true", true, false⟩ : AccItem) := by
    rw [h1, ← hupd]
    exact nth_set_self st.items i (accUpdate it) hne
  refine ⟨hg1, ?_, rfl⟩
  have hne1 : nth (accClick st (some i)).items i ≠ none := by simp [hg1]
  have h2 : accClick (accClick st (some i)) (some i) =
      ⟨(accClick st (some i)).items.set i
        (accUpdate ⟨some "true", true, false⟩)⟩ :=
    accClick_some (accClick st (some i)) i ⟨some "true", true, false⟩ hg1 rfl
  have hupd2 : accUpdate (⟨some "true", true, false⟩ : AccItem) =
      ⟨some "false", true, true⟩ := by
    simp [accUpdate]
  rw [h2, ← hupd2]
  exact nth_set_self (accClick st (some i)).items i _ hne1

/-- C8 witness: the single collapsed FAQ item expands on the first click
and collapses on the second; a non-trigger click is a no-op. -/
theorem accordion_toggle_witness :
    (nth (accClick exAcc (some 0)).items 0 = some ⟨some "true", true, false⟩) ∧
    (nth (accClick (accClick exAcc (some 0)) (some 0)).items 0 =
      some ⟨some "false", true, true⟩) ∧
    (accClick exAcc none = exAcc) :=
  accordion_toggle exAcc 0 ⟨none, true, true⟩ rfl rfl (by decide)

/-- C9: after any sequence of toast calls and timer firings, at most one
auto-hide timer is pending; a new toast call cancels the previously
pending timer (the old handle is no longer pending, only the fresh one
is), displays exactly the new message unhidden, and firing that fresh
timer hides the toast and leaves nothing pending. -/
theorem toast_single_slot (evs : List ToastEv) (msg : String) :
    (toastRun evs).pending.length ≤ 1 ∧
    (toastCall (toastRun evs) msg).pending =
      [(toastCall (toastRun evs) msg).timerHandle] ∧
    ((toastRun evs).timerHandle ∉ (toastCall (toastRun evs) msg).pending) ∧
    (toastCall (toastRun evs) msg).message = some msg ∧
    (toastCall (toastRun evs) msg).hidden = false ∧
    (timerFire (toastCall (toastRun evs) msg)
      (toastCall (toastRun evs) msg).timerHandle).hidden = true ∧
    (timerFire (toastCall (toastRun evs) msg)
      (toastCall (toastRun evs) msg).timerHandle).pending = [] := by
  have hinv := toastInv_run evs
  obtain ⟨hcall, hpend⟩ := toastInv_call (toastRun evs) msg hinv
  refine ⟨?_, hpend, ?_, rfl, rfl, ?_, ?_⟩
  · rcases hinv.1 with h | h <;> simp [h]
  · rw [hpend]
    simp only [toastCall, List.mem_singleton]
    exact Nat.ne_of_lt hinv.2
  · rw [timerFire, if_pos (by rw [hpend]; exact List.mem_singleton_self _)]
  · rw [timerFire, if_pos (by rw [hpend]; exact List.mem_singleton_self _)]
    simp only
    rw [hpend]
    simp

/-- C10: `setActive` always leaves at most one link active (it clears
every link before marking one), an id with no corresponding link leaves
all links inactive, and any sequence of spy events (observer updates and
toc clicks) preserves "at most one link active". -/
theorem spy_invariant_single_active :
    (∀ (st : SpyState) (id : String), countActive (setActive st id) ≤ 1) ∧
    (∀ (st : SpyState) (id : String),
      idToLink (st.links.map Link.href) id = none →
      countActive (setActive st id) = 0) ∧
    (∀ (st : SpyState) (evs : List SpyEv),
      countActive st ≤ 1 → countActive (spyRun st evs) ≤ 1) :=
  ⟨countActive_setActive, countActive_setActive_none,
   fun st evs h => spyRun_le_one evs st h⟩

/-- C10 witness: a run of an update and a click keeps at most one link
active, and setting an unknown id deactivates every link. -/
theorem spy_invariant_single_active_witness :
    countActive (spyRun exSpy [SpyEv.update exEntries, SpyEv.click (some 0)]) ≤ 1 ∧
    countActive (setActive exSpy "zzz") = 0 :=
  ⟨spy_invariant_single_active.2.2 exSpy
      [SpyEv.update exEntries, SpyEv.click (some 0)] (by decide),
   spy_invariant_single_active.2.1 exSpy "zzz" (by decide)⟩
